import Mathlib

/-!
Verification of the scanport program (src/scanport.cpp): a TCP port scanner
that expands /24 subnets into host addresses, probes every host concurrently
with a non-blocking connect bounded by a timeout, and prints the addresses
that accepted the connection.

The development shallowly embeds the program:
* the argument parsers (std::stod / std::stoul wrappers `string_to<timeval>`
  and `string_to<uint16_t>`, and the subnet regex) as functions on `List Char`;
* the probe `try_host` as a function of an environment recording the outcomes
  of the system calls it performs (socket, inet_pton, fcntl, connect, select,
  getsockopt), producing an event trace (socket open/close, debug log lines)
  and a result; and
* `main` as a pure pipeline from the argument list and per-target environments
  to the produced standard output, diagnostic line and exit status, plus a
  join/output event trace for the orchestration order.
-/

namespace Scanport

/-! ## Character-level parsing primitives -/

/-- Whitespace as classified by `isspace` in the C locale, which `strtod` and
`strtoul` (hence `std::stod` / `std::stoul`) skip before the number. -/
def isSpaceC (c : Char) : Bool :=
  c = ' ' || c = '\t' || c = '\n' || c = '\x0b' || c = '\x0c' || c = '\r'

/-- Split a character list into its longest prefix satisfying `p` and the
remainder (the `span` of the list under `p`). -/
def spanP (p : Char → Bool) : List Char → List Char × List Char
  | [] => ([], [])
  | c :: cs =>
    if p c then
      let r := spanP p cs
      (c :: r.1, r.2)
    else ([], c :: cs)

/-- Consume one optional sign character, as `strtod`/`strtoul` do; the
returned Bool is true exactly for a consumed minus sign. -/
def splitSign : List Char → Bool × List Char
  | [] => (false, [])
  | c :: cs =>
    if c = '-' then (true, cs)
    else if c = '+' then (false, cs)
    else (false, c :: cs)

def digitsValAux (acc : Nat) : List Char → Nat
  | [] => acc
  | c :: cs => digitsValAux (10 * acc + (c.toNat - '0'.toNat)) cs

/-- Numeric value of a decimal digit string. -/
def digitsVal (cs : List Char) : Nat := digitsValAux 0 cs

/-! ## string_to<uint16_t> (src/scanport.cpp lines 151-165)

`std::stoul` semantics: skip whitespace, optional sign, a nonempty digit
sequence; `out_of_range` when the digits exceed `ULONG_MAX` (64-bit); a minus
sign negates the value in unsigned (mod 2^64) arithmetic.  The wrapper then
truncates to `uint16_t` and accepts only if the truncation is lossless and
the whole string was consumed; every failure becomes `std::invalid_argument`.
-/

/-- Unsigned 64-bit wrap of a converted value: a minus sign negates modulo
2^64, as `strtoul` specifies. -/
def stoulWrap (neg : Bool) (n : Nat) : Nat :=
  if neg then (2 ^ 64 - n) % 2 ^ 64 else n

/-- Model of `std::stoul` (base 10) on a character list: returns the converted
64-bit value and the unconsumed remainder, or `none` when no conversion can be
performed or the digits overflow an unsigned 64-bit long. -/
def stoulCore (cs : List Char) : Option (Nat × List Char) :=
  let w := spanP isSpaceC cs
  let sg := splitSign w.2
  let d := spanP Char.isDigit sg.2
  if d.1 = [] then none
  else if 2 ^ 64 ≤ digitsVal d.1 then none
  else some (stoulWrap sg.1 (digitsVal d.1), d.2)

/-- `string_to<uint16_t>`: convert via `stoul`, truncate to 16 bits, accept
only a lossless truncation with the whole string consumed. -/
def string_to_uint16 (s : String) : Option Nat :=
  match stoulCore s.data with
  | none => none
  | some (v, rest) =>
    let r := v % 2 ^ 16
    if r = v ∧ rest = [] then some r else none

/-! ## string_to<timeval> (src/scanport.cpp lines 127-149)

`std::stod` is modelled on its fixed-point decimal forms only: optional
whitespace, optional sign, digits with an optional fractional part (at least
one digit in all).  The exponent, hexadecimal, infinity and NaN forms of
`strtod`, which the program does accept, are absent from the model, and the
value is kept exact (an unreduced fraction over a power-of-ten denominator)
where the program computes with rounded doubles.  The model therefore agrees
with the program only on inputs whose double conversion is exact — e.g.
optionally signed integral numerals of magnitude below 2^53, or fractions
with power-of-two denominators such as 0.5 — and the theorems below either
stay inside that fragment or treat the parsed value as opaque.  The wrapper
itself mirrors the source: split the value with `modf`, convert the integral
part to the 64-bit `tv_sec` field, check that conversion for overflow, scale
the fractional part to microseconds.
-/

/-- An exact decimal value as an unreduced fraction; the denominator is
always a positive power of ten, so no normalization is needed and every
conversion step stays computable. -/
structure Frac where
  num : Int
  den : Nat
deriving DecidableEq

/-- The value denoted by sign and integral/fractional digit parts:
the fraction (sign)(d1·10^L + d2) / 10^L where L is the length of the
fractional digit run. -/
def decVal (neg : Bool) (d1 d2 : List Char) : Frac :=
  let mag : Int := Int.ofNat (digitsVal d1 * 10 ^ d2.length + digitsVal d2)
  ⟨(if neg then -mag else mag), 10 ^ d2.length⟩

/-- Model of the fixed-point decimal fragment of `std::stod`: returns the
parsed value and the unconsumed remainder, `none` when no conversion is
possible within the fragment.  The exponent/hex/infinity/NaN forms that the
real `std::stod` also converts are not modelled (here they yield `none` or a
shorter prefix), so this function under-approximates the accepted set. -/
def stodCore (cs : List Char) : Option (Frac × List Char) :=
  let w := spanP isSpaceC cs
  let sg := splitSign w.2
  let d1 := spanP Char.isDigit sg.2
  match d1.2 with
  | '.' :: r4 =>
    let d2 := spanP Char.isDigit r4
    if d1.1 = [] ∧ d2.1 = [] then none
    else some (decVal sg.1 d1.1 d2.1, d2.2)
  | _ =>
    if d1.1 = [] then none else some (decVal sg.1 d1.1 [], d1.2)

/-- Truncation of an exact value toward zero, as the double-to-integer
conversions and `modf` in `string_to<timeval>` truncate. -/
def fracTrunc (q : Frac) : Int := Int.tdiv q.num (Int.ofNat q.den)

/-- The fractional part `f = v - i` that `modf` leaves (same sign as `v`). -/
def fracSub (q : Frac) (i : Int) : Frac := ⟨q.num - i * Int.ofNat q.den, q.den⟩

/-- Scaling the fractional part by a natural constant (`f * 1e6`). -/
def fracScale (q : Frac) (k : Nat) : Frac := ⟨q.num * Int.ofNat k, q.den⟩

/-- The C `struct timeval`: seconds and microseconds, both signed 64-bit
integers on the target platform. -/
structure Timeval where
  tv_sec : Int
  tv_usec : Int
deriving DecidableEq

/-- `string_to<timeval>`: parse with `stod`, require the whole string
consumed, split integral/fractional parts with `modf`, reject when the
integral part overflows the seconds field, scale the fraction to
microseconds.  Because the value is exact where the source rounds through a
double, this agrees with the program only on exactly-representable inputs
(integral magnitudes below 2^53, power-of-two-denominator fractions); near
the 2^63 seconds boundary and on fractions such as .500002 the program's
double rounding can differ from the exact truncation computed here. -/
def string_to_timeval (s : String) : Option Timeval :=
  match stodCore s.data with
  | none => none
  | some (v, rest) =>
    if rest = [] then
      let sec := fracTrunc v
      if -(2 ^ 63) ≤ sec ∧ sec < 2 ^ 63 then
        some ⟨sec, fracTrunc (fracScale (fracSub v sec) 1000000)⟩
      else none
    else none

/-! ## Subnet validation and target enumeration (src/scanport.cpp 186-209)

The regex is anchored (`regex_match`), so a subnet string is accepted exactly
when it decomposes as four runs of 1..3 digits separated by dots and followed
by "/24"; since the separators are not digits, greedy matching with
backtracking coincides with taking each maximal digit run.  The single capture
group is the first three octets with their trailing dots. -/

/-- Match one octet of the subnet regex: a maximal digit run of length 1..3. -/
def parseOct (cs : List Char) : Option (List Char × List Char) :=
  let r := spanP Char.isDigit cs
  if r.1.length = 0 ∨ 3 < r.1.length then none else some r

/-- Anchored match of the subnet regex, returning the capture group
(the first three octets, each with its trailing dot). -/
def matchSubnet (cs : List Char) : Option (List Char) :=
  match parseOct cs with
  | none => none
  | some (a, r1) =>
    match r1 with
    | '.' :: r2 =>
      match parseOct r2 with
      | none => none
      | some (b, r3) =>
        match r3 with
        | '.' :: r4 =>
          match parseOct r4 with
          | none => none
          | some (c, r5) =>
            match r5 with
            | '.' :: r6 =>
              match parseOct r6 with
              | none => none
              | some (_, r7) =>
                if r7 = ['/', '2', '4'] then
                  some (a ++ '.' :: (b ++ '.' :: (c ++ ['.'])))
                else none
            | _ => none
        | _ => none
    | _ => none

/-- Validation of one subnet argument: the captured "A.B.C." network string
on success, `none` when the regex does not match. -/
def parseSubnet (s : String) : Option String :=
  (matchSubnet s.data).map (fun cs => ⟨cs⟩)

/-- Host addresses of a /24 network: the network string followed by each host
octet 1..254 (the loop `for i = 1; i < 255`). -/
def expandSubnet (pre : String) : List String :=
  (List.range' 1 254).map (fun i => pre ++ toString i)

/-- The arguments of the launched futures, in launch order: every host of
every subnet, each paired with the shared destination port. -/
def mkFutureArgs (pres : List String) (port : Nat) : List (String × Nat) :=
  pres.flatMap (fun pre => (expandSubnet pre).map (fun ip => (ip, port)))

/-! ## The probe engine try_host (src/scanport.cpp lines 51-120)

`try_host` interacts with the operating system; each invocation is modelled
against an environment recording what every system call it performs would
return: the sequence of `socket` results (retried while the error is EMFILE),
whether `inet_pton` and `fcntl` succeed, the immediate `connect` outcome, the
`select` readiness outcome, and the `getsockopt(SO_ERROR)` answer.  The
function yields the event trace (socket open/close, debug log lines) together
with its result: the address string, the empty string, or a thrown error. -/

/-- Result of one `socket(2)` call: a descriptor, the transient EMFILE
failure (retried after a 10ms sleep), or another fatal errno. -/
inductive SockAttempt where
  | ok (fd : Nat)
  | emfile
  | otherErr (msg : String)
deriving DecidableEq

/-- Immediate outcome of the non-blocking `connect(2)` call. -/
inductive ConnectRes where
  | immediate
  | ehostdown
  | einprogress
  | otherErr (msg : String)
deriving DecidableEq

/-- Outcome of the `select(2)` readiness wait on the connecting socket. -/
inductive SelectRes where
  | errored (msg : String)
  | timedOut
  | writable
deriving DecidableEq

/-- Environment of one probe invocation: the answers the operating system
gives to each system call `try_host` performs, error strings standing for the
`strerror(errno)` texts. -/
structure ProbeEnv where
  sockAttempts : List SockAttempt
  ptonErr : Option String
  fcntlErr : Option String
  connectRes : ConnectRes
  selectRes : SelectRes
  soErr : Except String Int

/-- Observable events of one probe invocation: acquiring a descriptor,
closing one (the scope-exit guard closes whatever `sockfd` holds, `-1`
included), and a debug log line on the diagnostic stream. -/
inductive Ev where
  | sockOpen (fd : Nat)
  | sockClose (fd : Int)
  | log (msg : String)
deriving DecidableEq

/-- The socket-acquisition loop: retry while the failure is EMFILE; stop at
the first descriptor or the first other error.  `none` models the loop never
terminating (EMFILE forever). -/
def acquireSocket : List SockAttempt → Option (Except String Nat)
  | [] => none
  | SockAttempt.ok fd :: _ => some (Except.ok fd)
  | SockAttempt.emfile :: rest => acquireSocket rest
  | SockAttempt.otherErr m :: _ => some (Except.error ("socket: " ++ m))

/-- The probe `try_host`.  Returns `none` when the acquisition loop never
terminates; otherwise the event trace and the result: `Except.ok` with the
address (connected) or the empty string (host down, timeout, connection
refused), or `Except.error` with the message of the thrown exception.  The
scope-exit guard emits the closing event on every path. -/
def try_host (dbg : Bool) (env : ProbeEnv) (timeout : Timeval) (ipaddr : String)
    (port : Nat) : Option (List Ev × Except String String) :=
  match acquireSocket env.sockAttempts with
  | none => none
  | some (Except.error m) => some ([Ev.sockClose (-1)], Except.error m)
  | some (Except.ok fd) =>
    let done : List String → Except String String → List Ev × Except String String :=
      fun logs r =>
        (Ev.sockOpen fd :: ((if dbg then logs.map Ev.log else []) ++ [Ev.sockClose (Int.ofNat fd)]), r)
    some <|
      match env.ptonErr with
      | some e => done [] (Except.error ("inet_pton: " ++ ipaddr ++ ": " ++ e))
      | none =>
        match env.fcntlErr with
        | some e => done [] (Except.error ("fcntl: " ++ e))
        | none =>
          match env.connectRes with
          | ConnectRes.immediate =>
            done [ipaddr ++ " - connected immediately"] (Except.ok ipaddr)
          | ConnectRes.ehostdown =>
            done [ipaddr ++ " - host down"] (Except.ok "")
          | ConnectRes.otherErr e =>
            done [] (Except.error ("connect " ++ ipaddr ++ ": " ++ e))
          | ConnectRes.einprogress =>
            match env.selectRes with
            | SelectRes.errored e => done [] (Except.error ("select: " ++ e))
            | SelectRes.timedOut => done [ipaddr ++ " - timeout"] (Except.ok "")
            | SelectRes.writable =>
              match env.soErr with
              | Except.error e => done [] (Except.error ("getsockopt: " ++ e))
              | Except.ok v =>
                if v ≠ 0 then done [ipaddr ++ " - not connected"] (Except.ok "")
                else done [ipaddr ++ " - connected, fd=" ++ toString fd] (Except.ok ipaddr)

/-- The four probe outcomes of the specification. -/
inductive ProbeOutcome where
  | Open
  | Closed
  | TimedOut
  | HostDown
deriving DecidableEq

/-- Classification of the branch `try_host` takes in a given environment,
read off its branch structure: `some` of the outcome the debug line tags, or
`none` when the invocation throws (or never returns). -/
def classify (env : ProbeEnv) : Option ProbeOutcome :=
  match acquireSocket env.sockAttempts with
  | some (Except.ok _) =>
    match env.ptonErr with
    | some _ => none
    | none =>
      match env.fcntlErr with
      | some _ => none
      | none =>
        match env.connectRes with
        | ConnectRes.immediate => some ProbeOutcome.Open
        | ConnectRes.ehostdown => some ProbeOutcome.HostDown
        | ConnectRes.otherErr _ => none
        | ConnectRes.einprogress =>
          match env.selectRes with
          | SelectRes.errored _ => none
          | SelectRes.timedOut => some ProbeOutcome.TimedOut
          | SelectRes.writable =>
            match env.soErr with
            | Except.error _ => none
            | Except.ok v =>
              if v ≠ 0 then some ProbeOutcome.Closed else some ProbeOutcome.Open
  | _ => none

/-! ## The orchestrator (src/scanport.cpp lines 169-222)

`main` strips an optional leading `--debug`, parses timeout and port, validates
every subnet (collecting the captured network strings), launches one future per
host, then walks the futures in launch order: `get()` each and print the
returned address when it is nonempty.  A thrown exception (from argument
parsing or rethrown by `get()`) is caught at top level, printed as
`program: message` on the diagnostic stream, and the process exits nonzero. -/

/-- Result of a run of `main`: the standard-output lines, the diagnostic line
(if any), whether the process exited nonzero, and whether it never finished
(a probe blocked forever in the acquisition loop). -/
structure MainRes where
  stdout : List String
  errLine : Option String
  failed : Bool
  hung : Bool
deriving DecidableEq

/-- The subnet-validation loop: stop at the first string the regex rejects,
otherwise collect the captured network strings in argument order. -/
def validateSubnets : List String → Except String (List String)
  | [] => Except.ok []
  | s :: rest =>
    match parseSubnet s with
    | none => Except.error s
    | some pre =>
      match validateSubnets rest with
      | Except.error b => Except.error b
      | Except.ok ps => Except.ok (pre :: ps)

/-- The probe function induced by a per-address environment assignment:
what `future::get()` delivers for one target, `none` when that probe never
finishes. -/
def probeOf (net : String → ProbeEnv) (dbg : Bool) (tv : Timeval) :
    String → Nat → Option (Except String String) :=
  fun ip port => (try_host dbg (net ip) tv ip port).map Prod.snd

/-- The future-collection loop of `main`: walk the futures in launch order,
`get()` each one and print nonempty results; a rethrown exception aborts the
loop, a never-finishing probe blocks it forever.  Returns the printed lines,
the first exception message (if any), and whether the loop blocked. -/
def collectLoop (probe : String → Nat → Option (Except String String)) :
    List (String × Nat) → List String × Option String × Bool
  | [] => ([], none, false)
  | t :: ts =>
    match probe t.1 t.2 with
    | none => ([], none, true)
    | some (Except.error m) => ([], some m, false)
    | some (Except.ok s) =>
      let r := collectLoop probe ts
      ((if s = "" then r.1 else s :: r.1), r.2.1, r.2.2)

/-- A failed run: no standard output, one diagnostic line, nonzero exit. -/
def mainFail (pn msg : String) : MainRes :=
  ⟨[], some (pn ++ ": " ++ msg), true, false⟩

/-- The whole of `main` as a function of the program name, the argument list
(after the program name) and the per-address probe environments. -/
def mainRun (pn : String) (args0 : List String) (net : String → ProbeEnv) : MainRes :=
  let dbg : Bool := args0.head? == some "--debug"
  let args := if dbg then args0.tail else args0
  match args with
  | tStr :: pStr :: sn0 :: snRest =>
    (match string_to_timeval tStr with
     | none => mainFail pn ("Invalid floating point number \x27" ++ tStr ++ "\x27")
     | some tv =>
       match string_to_uint16 pStr with
       | none => mainFail pn ("Invalid integer \x27" ++ pStr ++ "\x27")
       | some port =>
         match validateSubnets (sn0 :: snRest) with
         | Except.error bad => mainFail pn ("Invalid subnet \x27" ++ bad ++ "\x27")
         | Except.ok pres =>
           let res := collectLoop (probeOf net dbg tv) (mkFutureArgs pres port)
           match res.2.1 with
           | some m => ⟨res.1, some (pn ++ ": " ++ m), true, res.2.2⟩
           | none => ⟨res.1, none, false, res.2.2⟩)
  | _ => mainFail pn "wrong usage"

/-! ## Orchestration order: the join/output event trace

The collection loop interleaves joining futures with printing: each Open
address is printed immediately after its own future is joined, before the
later futures are joined.  The trace records that order. -/

/-- Orchestrator events: joining one target probe (its `future::get()`
returning), and writing one address to standard output. -/
inductive OEv where
  | join (ip : String)
  | output (ip : String)
deriving DecidableEq

/-- The join/output event trace of the future-collection loop. -/
def collectTrace (probe : String → Nat → Option (Except String String)) :
    List (String × Nat) → List OEv
  | [] => []
  | t :: ts =>
    match probe t.1 t.2 with
    | none => []
    | some (Except.error _) => [OEv.join t.1]
    | some (Except.ok s) =>
      OEv.join t.1 ::
        (if s = "" then collectTrace probe ts else OEv.output s :: collectTrace probe ts)

/-- Does a trace consist only of output events? -/
def outputsOnly : List OEv → Bool
  | [] => true
  | OEv.output _ :: r => outputsOnly r
  | OEv.join _ :: _ => false

/-- Does a trace perform every join before the first output — i.e. is it a
run that collects all outcomes first and only then emits the results? -/
def joinsThenOutputs : List OEv → Bool
  | [] => true
  | OEv.join _ :: r => joinsThenOutputs r
  | OEv.output _ :: r => outputsOnly r

/-- The string a successfully joined future delivered (empty otherwise);
used to describe the interleaved trace shape. -/
def okStr : Option (Except String String) → String
  | some (Except.ok s) => s
  | _ => ""

/-! ## Specification-side predicates

These follow the wording of the specification and the claims; the theorems
compare them with the functions modelled from the source. -/

/-- Every character is a decimal digit. -/
def DigitsOnly (d : List Char) : Prop := ∀ c ∈ d, c.isDigit = true

/-- Every character is C-locale whitespace. -/
def WsOnly (w : List Char) : Prop := ∀ c ∈ w, isSpaceC c = true

/-- An optional single sign character. -/
def SignShape (sg : List Char) : Prop := sg = [] ∨ sg = ['+'] ∨ sg = ['-']

/-- Whether the optional sign is a minus sign. -/
def isNegSign (sg : List Char) : Bool := sg == ['-']

/-- The port string characterization of claim C8: a plain numeral for an
unsigned 16-bit value, the whole string being digits. -/
def PortNumeral (s : String) (p : Nat) : Prop :=
  s.data ≠ [] ∧ DigitsOnly s.data ∧ digitsVal s.data < 2 ^ 16 ∧ p = digitsVal s.data

/-- What `string_to<uint16_t>` actually accepts: the `stoul` grammar
(whitespace, optional sign, digits) covering the whole string, converting
without 64-bit overflow to a value that, after the unsigned wrap for a minus
sign, fits in 16 bits. -/
def StoulSpec (s : String) (p : Nat) : Prop :=
  ∃ w sg d, s.data = w ++ sg ++ d ∧ WsOnly w ∧ SignShape sg ∧ d ≠ [] ∧
    DigitsOnly d ∧ digitsVal d < 2 ^ 64 ∧
    p = stoulWrap (isNegSign sg) (digitsVal d) ∧ p < 2 ^ 16

/-- The integral part of the parsed value fits the 64-bit seconds field. -/
def SecFits (v : Frac) : Prop := -(2 ^ 63) ≤ fracTrunc v ∧ fracTrunc v < 2 ^ 63

/-- Shape of a fixed-point decimal literal: whitespace, an optional sign, an
integral digit run, optionally a dot and a fractional digit run, with at
least one digit in all. -/
def DecimalShape (w sg d1 tail d2 : List Char) : Prop :=
  WsOnly w ∧ SignShape sg ∧ DigitsOnly d1 ∧
    ((tail = [] ∧ d2 = []) ∨ (tail = '.' :: d2 ∧ DigitsOnly d2)) ∧
    (d1 = [] → d2 ≠ [])

/-- The timeout characterization of claim C7: additionally, the denoted value
is non-negative (the denominator is a positive power of ten, so the sign of
the value is the sign of the numerator). -/
def DecimalOkNonNeg (s : String) : Prop :=
  ∃ w sg d1 tail d2, s.data = w ++ sg ++ d1 ++ tail ∧ DecimalShape w sg d1 tail d2 ∧
    SecFits (decVal (isNegSign sg) d1 d2) ∧ 0 ≤ (decVal (isNegSign sg) d1 d2).num

/-- One octet field of the subnet pattern: one to three digits. -/
def okOct (d : List Char) : Prop := d ≠ [] ∧ d.length ≤ 3 ∧ DigitsOnly d

/-- The dotted-quad pattern of the subnet regex, with the "/24" suffix. -/
def SubnetPat (s : String) : Prop :=
  ∃ a b c x : List Char, okOct a ∧ okOct b ∧ okOct c ∧ okOct x ∧
    s.data = a ++ '.' :: (b ++ '.' :: (c ++ '.' :: (x ++ ['/', '2', '4'])))

/-- The addresses a join/output trace wrote to standard output, in order. -/
def outputsOf (tr : List OEv) : List String :=
  tr.filterMap (fun e => match e with | OEv.output ip => some ip | OEv.join _ => none)

/-! ## Sample environments for concrete runs -/

/-- A host accepting the connection immediately. -/
def envOpen : ProbeEnv :=
  ⟨[SockAttempt.ok 3], none, none, ConnectRes.immediate, SelectRes.writable, Except.ok 0⟩

/-- A host refusing the connection: the socket becomes writable with the
pending error ECONNREFUSED (111). -/
def envClosed : ProbeEnv :=
  ⟨[SockAttempt.ok 3], none, none, ConnectRes.einprogress, SelectRes.writable, Except.ok 111⟩

/-- A host never answering: the readiness wait expires. -/
def envTimedOut : ProbeEnv :=
  ⟨[SockAttempt.ok 3], none, none, ConnectRes.einprogress, SelectRes.timedOut, Except.ok 0⟩

/-- A probe whose connect fails with an unhandled errno (EACCES). -/
def envIoErr : ProbeEnv :=
  ⟨[SockAttempt.ok 3], none, none, ConnectRes.otherErr "Permission denied",
    SelectRes.writable, Except.ok 0⟩

/-- A network where host .1 is open, host .2 makes the probe throw, and every
other host refuses the connection. -/
def netPartial : String → ProbeEnv :=
  fun ip =>
    if ip = "10.0.0.1" then envOpen
    else if ip = "10.0.0.2" then envIoErr
    else envClosed

/-- A network where hosts .1 and .2 are open and every other host refuses. -/
def netTwoOpen : String → ProbeEnv :=
  fun ip => if ip = "10.0.0.1" then envOpen else if ip = "10.0.0.2" then envOpen else envClosed

/-! ## Basic lemmas: strings, spans, characters -/

theorem strApp_cancel_left (a : String) {b c : String} : a ++ b = a ++ c ↔ b = c := by
  constructor
  · intro h
    have h2 : a.data ++ b.data = a.data ++ c.data := by
      rw [← String.data_append, ← String.data_append, h]
    have h3 : b.data = c.data := List.append_cancel_left h2
    cases b
    cases c
    simp_all
  · intro h
    rw [h]

theorem spanP_decomp (p : Char → Bool) (cs : List Char) :
    cs = (spanP p cs).1 ++ (spanP p cs).2 ∧ (∀ c ∈ (spanP p cs).1, p c = true) ∧
      ∀ c, (spanP p cs).2.head? = some c → p c = false := by
  induction cs with
  | nil => simp [spanP]
  | cons c cs ih =>
    by_cases h : p c
    · simp only [spanP, if_pos h]
      refine ⟨by simpa using ih.1, ?_, ih.2.2⟩
      intro d hd
      rcases List.mem_cons.mp hd with rfl | hd2
      · exact h
      · exact ih.2.1 d hd2
    · simp only [spanP, if_neg h]
      refine ⟨rfl, by simp, ?_⟩
      intro d hd
      simp only [List.head?_cons, Option.some_inj] at hd
      subst hd
      simpa using h

theorem spanP_eq_of (p : Char → Bool) (l r : List Char) (hl : ∀ c ∈ l, p c = true)
    (hr : ∀ c, r.head? = some c → p c = false) : spanP p (l ++ r) = (l, r) := by
  induction l with
  | nil =>
    cases r with
    | nil => simp [spanP]
    | cons c rs =>
      have hc := hr c rfl
      simp [spanP, hc]
  | cons c ls ih =>
    have hc : p c = true := hl c (List.mem_cons_self c ls)
    have ih2 := ih (fun d hd => hl d (List.mem_cons_of_mem c hd))
    simp [spanP, hc, ih2]

theorem spanP_all (p : Char → Bool) (l : List Char) (hl : ∀ c ∈ l, p c = true) :
    spanP p l = (l, []) := by
  have := spanP_eq_of p l [] hl (by simp)
  simpa using this

theorem space_not_digit {c : Char} (h : isSpaceC c = true) : c.isDigit = false := by
  have h2 : ((((c = ' ' ∨ c = '\t') ∨ c = '\n') ∨ c = '\x0b') ∨ c = '\x0c') ∨ c = '\r' := by
    simpa [isSpaceC] using h
  rcases h2 with ((((rfl | rfl) | rfl) | rfl) | rfl) | rfl <;> rfl

theorem digit_not_space {c : Char} (h : c.isDigit = true) : isSpaceC c = false := by
  cases hs : isSpaceC c
  · rfl
  · rw [space_not_digit hs] at h
    cases h

theorem digit_ne_signs {c : Char} (h : c.isDigit = true) : c ≠ '-' ∧ c ≠ '+' := by
  constructor <;> rintro rfl <;> exact absurd h (by decide)

theorem splitSign_no_sign {cs : List Char}
    (h : ∀ c, cs.head? = some c → c ≠ '-' ∧ c ≠ '+') : splitSign cs = (false, cs) := by
  cases cs with
  | nil => rfl
  | cons c rest =>
    have hc := h c rfl
    simp [splitSign, hc.1, hc.2]

theorem splitSign_sound (cs : List Char) :
    ∃ sg, SignShape sg ∧ cs = sg ++ (splitSign cs).2 ∧ (splitSign cs).1 = isNegSign sg := by
  cases cs with
  | nil => exact ⟨[], Or.inl rfl, rfl, rfl⟩
  | cons c rest =>
    by_cases hm : c = '-'
    · subst hm
      exact ⟨['-'], Or.inr (Or.inr rfl), by simp [splitSign], by simp [splitSign, isNegSign]⟩
    · by_cases hp : c = '+'
      · subst hp
        exact ⟨['+'], Or.inr (Or.inl rfl), by simp [splitSign, hm], by simp [splitSign, hm, isNegSign]⟩
      · refine ⟨[], Or.inl rfl, ?_, ?_⟩ <;> simp [splitSign, hm, hp, isNegSign]

/-! ## Lemmas about the stoul model -/

theorem span_space_shape (w sg d tail : List Char) (hw : WsOnly w) (hsg : SignShape sg)
    (hd : DigitsOnly d) (htail : ∀ c, tail.head? = some c → isSpaceC c = false) :
    spanP isSpaceC (w ++ (sg ++ (d ++ tail))) = (w, sg ++ (d ++ tail)) := by
  apply spanP_eq_of _ _ _ hw
  intro c hc
  rcases hsg with rfl | rfl | rfl
  · simp only [List.nil_append] at hc
    cases d with
    | nil =>
      simp only [List.nil_append] at hc
      exact htail c hc
    | cons c0 cs0 =>
      simp only [List.cons_append, List.head?_cons, Option.some_inj] at hc
      subst hc
      exact digit_not_space (hd c0 (List.mem_cons_self _ _))
  · simp only [List.cons_append, List.head?_cons, Option.some_inj] at hc
    subst hc
    rfl
  · simp only [List.cons_append, List.head?_cons, Option.some_inj] at hc
    subst hc
    rfl

theorem splitSign_shape (sg d tail : List Char) (hsg : SignShape sg) (hd : DigitsOnly d)
    (htail : ∀ c, tail.head? = some c → c ≠ '-' ∧ c ≠ '+') :
    splitSign (sg ++ (d ++ tail)) = (isNegSign sg, d ++ tail) := by
  rcases hsg with rfl | rfl | rfl
  · rw [List.nil_append, splitSign_no_sign]
    · simp [isNegSign]
    · intro c hc
      cases d with
      | nil =>
        simp only [List.nil_append] at hc
        exact htail c hc
      | cons c0 cs0 =>
        simp only [List.cons_append, List.head?_cons, Option.some_inj] at hc
        subst hc
        exact digit_ne_signs (hd c0 (List.mem_cons_self _ _))
  · simp [splitSign, isNegSign]
  · simp [splitSign, isNegSign]

theorem stoulCore_complete (w sg d : List Char) (hw : WsOnly w) (hsg : SignShape sg)
    (hne : d ≠ []) (hd : DigitsOnly d) :
    stoulCore (w ++ (sg ++ d)) =
      if 2 ^ 64 ≤ digitsVal d then none
      else some (stoulWrap (isNegSign sg) (digitsVal d), []) := by
  have hd0 : d ++ ([] : List Char) = d := List.append_nil d
  have hws : spanP isSpaceC (w ++ (sg ++ d)) = (w, sg ++ d) := by
    have := span_space_shape w sg d [] hw hsg hd (by simp)
    simpa [hd0] using this
  have hsplit : splitSign (sg ++ d) = (isNegSign sg, d) := by
    have := splitSign_shape sg d [] hsg hd (by simp)
    simpa [hd0] using this
  have hdig : spanP Char.isDigit d = (d, []) := spanP_all _ _ hd
  simp only [stoulCore, hws, hsplit, hdig, hne, if_false]

theorem stoulCore_sound {cs : List Char} {v : Nat} {rest : List Char}
    (h : stoulCore cs = some (v, rest)) :
    ∃ w sg d, cs = w ++ (sg ++ (d ++ rest)) ∧ WsOnly w ∧ SignShape sg ∧ d ≠ [] ∧
      DigitsOnly d ∧ digitsVal d < 2 ^ 64 ∧ v = stoulWrap (isNegSign sg) (digitsVal d) := by
  obtain ⟨hws_eq, hws_all, _⟩ := spanP_decomp isSpaceC cs
  obtain ⟨sg, hshape, hsg_eq, hneg⟩ := splitSign_sound (spanP isSpaceC cs).2
  obtain ⟨hd_eq, hd_all, _⟩ := spanP_decomp Char.isDigit (splitSign (spanP isSpaceC cs).2).2
  simp only [stoulCore] at h
  by_cases h1 : (spanP Char.isDigit (splitSign (spanP isSpaceC cs).2).2).1 = []
  · rw [if_pos h1] at h
    cases h
  · rw [if_neg h1] at h
    by_cases h2 : 2 ^ 64 ≤ digitsVal (spanP Char.isDigit (splitSign (spanP isSpaceC cs).2).2).1
    · rw [if_pos h2] at h
      cases h
    · rw [if_neg h2] at h
      have hv := (Option.some_inj.mp h)
      refine ⟨(spanP isSpaceC cs).1, sg,
        (spanP Char.isDigit (splitSign (spanP isSpaceC cs).2).2).1, ?_, hws_all, hshape, h1,
        hd_all, by omega, ?_⟩
      · have hrest : rest = (spanP Char.isDigit (splitSign (spanP isSpaceC cs).2).2).2 := by
          have := congrArg Prod.snd hv
          simpa using this.symm
        rw [← hrest] at hd_eq
        calc cs = (spanP isSpaceC cs).1 ++ (spanP isSpaceC cs).2 := hws_eq
        _ = (spanP isSpaceC cs).1 ++ (sg ++ (splitSign (spanP isSpaceC cs).2).2) := by
              rw [← hsg_eq]
        _ = _ := by rw [← hd_eq]
      · have := congrArg Prod.fst hv
        simp only at this
        rw [← this, hneg]

/-! ## Lemmas about the stod model -/

theorem stodCore_complete (w sg d1 tail d2 : List Char) (hw : WsOnly w) (hsg : SignShape sg)
    (hd1 : DigitsOnly d1)
    (htail : (tail = [] ∧ d2 = []) ∨ (tail = '.' :: d2 ∧ DigitsOnly d2))
    (hne : d1 = [] → d2 ≠ []) :
    stodCore (w ++ (sg ++ (d1 ++ tail))) = some (decVal (isNegSign sg) d1 d2, []) := by
  have htail_ns : ∀ c, tail.head? = some c → isSpaceC c = false := by
    rcases htail with ⟨rfl, rfl⟩ | ⟨rfl, _⟩
    · simp
    · intro c hc
      simp only [List.head?_cons, Option.some_inj] at hc
      subst hc
      rfl
  have htail_nsign : ∀ c, tail.head? = some c → c ≠ '-' ∧ c ≠ '+' := by
    rcases htail with ⟨rfl, rfl⟩ | ⟨rfl, _⟩
    · simp
    · intro c hc
      simp only [List.head?_cons, Option.some_inj] at hc
      subst hc
      exact ⟨by decide, by decide⟩
  have htail_nd : ∀ c, tail.head? = some c → c.isDigit = false := by
    rcases htail with ⟨rfl, rfl⟩ | ⟨rfl, _⟩
    · simp
    · intro c hc
      simp only [List.head?_cons, Option.some_inj] at hc
      subst hc
      rfl
  have hws := span_space_shape w sg d1 tail hw hsg hd1 htail_ns
  have hsplit := splitSign_shape sg d1 tail hsg hd1 htail_nsign
  have hdig : spanP Char.isDigit (d1 ++ tail) = (d1, tail) :=
    spanP_eq_of _ _ _ hd1 htail_nd
  rcases htail with ⟨rfl, rfl⟩ | ⟨rfl, hd2⟩
  · have hne2 : ¬ d1 = [] := fun h0 => (hne h0) rfl
    simp only [stodCore, hws, hsplit, hdig, hne2, if_false]
  · have hdig2 : spanP Char.isDigit d2 = (d2, []) := spanP_all _ _ hd2
    have hcond : ¬ (d1 = [] ∧ d2 = []) := by
      rintro ⟨h1, h2⟩
      exact (hne h1) h2
    simp only [stodCore, hws, hsplit, hdig, hdig2, hcond, if_false]

/-! ## Lemmas about the subnet regex model -/

theorem parseOct_eq_of (d r : List Char) (hd : DigitsOnly d) (h1 : d ≠ []) (h3 : d.length ≤ 3)
    (hr : ∀ c, r.head? = some c → c.isDigit = false) : parseOct (d ++ r) = some (d, r) := by
  have hs := spanP_eq_of Char.isDigit d r hd hr
  have hlen : ¬ (d.length = 0 ∨ 3 < d.length) := by
    rintro (h0 | h0)
    · exact h1 (List.length_eq_zero.mp h0)
    · omega
  simp only [parseOct, hs, hlen, if_false]

theorem parseOct_sound {cs d r : List Char} (h : parseOct cs = some (d, r)) :
    cs = d ++ r ∧ DigitsOnly d ∧ d ≠ [] ∧ d.length ≤ 3 := by
  obtain ⟨he, hall, _⟩ := spanP_decomp Char.isDigit cs
  simp only [parseOct] at h
  split at h
  · cases h
  · next hcond =>
    have h2 : spanP Char.isDigit cs = (d, r) := Option.some_inj.mp h
    rw [h2] at he hall hcond
    simp only [not_or, not_lt] at hcond
    exact ⟨he, hall, fun h0 => hcond.1 (by rw [h0]; rfl), hcond.2⟩

theorem matchSubnet_sound {cs pre : List Char} (h : matchSubnet cs = some pre) :
    ∃ a b c x, okOct a ∧ okOct b ∧ okOct c ∧ okOct x ∧
      cs = a ++ '.' :: (b ++ '.' :: (c ++ '.' :: (x ++ ['/', '2', '4']))) ∧
      pre = a ++ '.' :: (b ++ '.' :: (c ++ ['.'])) := by
  simp only [matchSubnet] at h
  split at h
  · cases h
  · next a r1 heq1 =>
    split at h
    · next r2 =>
      split at h
      · cases h
      · next b r3 heq3 =>
        split at h
        · next r4 =>
          split at h
          · cases h
          · next c r5 heq5 =>
            split at h
            · next r6 =>
              split at h
              · cases h
              · next x r7 heq7 =>
                split at h
                · next hslash =>
                  have hpre := Option.some_inj.mp h
                  obtain ⟨e1, da, na, la⟩ := parseOct_sound heq1
                  obtain ⟨e2, db, nb, lb⟩ := parseOct_sound heq3
                  obtain ⟨e3, dc, nc, lc⟩ := parseOct_sound heq5
                  obtain ⟨e4, dx, nx, lx⟩ := parseOct_sound heq7
                  refine ⟨a, b, c, x, ⟨na, la, da⟩, ⟨nb, lb, db⟩, ⟨nc, lc, dc⟩,
                    ⟨nx, lx, dx⟩, ?_, hpre.symm⟩
                  rw [hslash] at e4
                  rw [e4] at e3
                  rw [e3] at e2
                  rw [e2] at e1
                  exact e1
                · cases h
            · cases h
        · cases h
    · cases h

theorem head_dot_not_digit : ∀ (t : List Char) (ch : Char),
    (('.' :: t).head? = some ch) → ch.isDigit = false := by
  intro t ch hch
  simp only [List.head?_cons, Option.some_inj] at hch
  subst hch
  rfl

theorem matchSubnet_complete (a b c x : List Char) (ha : okOct a) (hb : okOct b)
    (hc : okOct c) (hx : okOct x) :
    matchSubnet (a ++ '.' :: (b ++ '.' :: (c ++ '.' :: (x ++ ['/', '2', '4'])))) =
      some (a ++ '.' :: (b ++ '.' :: (c ++ ['.']))) := by
  have hslash : ∀ ch : Char, ((['/', '2', '4'] : List Char).head? = some ch) →
      ch.isDigit = false := by
    intro ch hch
    simp only [List.head?_cons, Option.some_inj] at hch
    subst hch
    rfl
  have p1 := parseOct_eq_of a ('.' :: (b ++ '.' :: (c ++ '.' :: (x ++ ['/', '2', '4']))))
    ha.2.2 ha.1 ha.2.1 (head_dot_not_digit _)
  have p2 := parseOct_eq_of b ('.' :: (c ++ '.' :: (x ++ ['/', '2', '4'])))
    hb.2.2 hb.1 hb.2.1 (head_dot_not_digit _)
  have p3 := parseOct_eq_of c ('.' :: (x ++ ['/', '2', '4'])) hc.2.2 hc.1 hc.2.1
    (head_dot_not_digit _)
  have p4 := parseOct_eq_of x ['/', '2', '4'] hx.2.2 hx.1 hx.2.1 hslash
  simp [matchSubnet, p1, p2, p3, p4]

/-! ## Lemmas about the probe engine and the orchestrator -/

theorem probeOf_of_classify {env : ProbeEnv} {o : ProbeOutcome} (h : classify env = some o)
    (dbg : Bool) (tv : Timeval) (ip : String) (port : Nat) :
    (try_host dbg env tv ip port).map Prod.snd
      = some (Except.ok (if o = ProbeOutcome.Open then ip else "")) := by
  obtain ⟨atts, pton, fcn, conn, sel, soe⟩ := env
  rcases hacq : acquireSocket atts with _ | e
  · simp [classify, hacq] at h
  · rcases e with m | fd
    · simp [classify, hacq] at h
    · cases pton with
      | some e => simp [classify, hacq] at h
      | none =>
        cases fcn with
        | some e => simp [classify, hacq] at h
        | none =>
          cases conn with
          | immediate =>
            simp only [classify, hacq, Option.some_inj] at h
            subst h
            simp [try_host, hacq]
          | ehostdown =>
            simp only [classify, hacq, Option.some_inj] at h
            subst h
            simp [try_host, hacq]
          | otherErr m => simp [classify, hacq] at h
          | einprogress =>
            cases sel with
            | errored m => simp [classify, hacq] at h
            | timedOut =>
              simp only [classify, hacq, Option.some_inj] at h
              subst h
              simp [try_host, hacq]
            | writable =>
              cases soe with
              | error m => simp [classify, hacq] at h
              | ok v =>
                by_cases hv : v = 0
                · subst hv
                  simp only [classify, hacq, ne_eq, not_true_eq_false, reduceIte,
                    Option.some_inj] at h
                  subst h
                  simp [try_host, hacq]
                · simp only [classify, hacq, ne_eq, hv, not_false_eq_true, reduceIte,
                    Option.some_inj] at h
                  subst h
                  simp [try_host, hacq, hv]
theorem try_host_spec {env : ProbeEnv} {dbg : Bool} {tv : Timeval} {ip : String} {port : Nat}
    {tr : List Ev} {r : Except String String}
    (hrun : try_host dbg env tv ip port = some (tr, r)) :
    (∃ o, classify env = some o ∧ r = Except.ok (if o = ProbeOutcome.Open then ip else "")) ∨
      (classify env = none ∧ ∃ m, r = Except.error m) := by
  obtain ⟨atts, pton, fcn, conn, sel, soe⟩ := env
  rcases hacq : acquireSocket atts with _ | e
  · simp [try_host, hacq] at hrun
  · rcases e with m | fd
    · simp only [try_host, hacq, Option.some_inj] at hrun
      have hr := congrArg Prod.snd hrun
      right
      exact ⟨by simp [classify, hacq], ⟨m, hr.symm⟩⟩
    · cases pton with
      | some e =>
        simp only [try_host, hacq, Option.some_inj] at hrun
        have hr := congrArg Prod.snd hrun
        right
        exact ⟨by simp [classify, hacq], ⟨_, hr.symm⟩⟩
      | none =>
        cases fcn with
        | some e =>
          simp only [try_host, hacq, Option.some_inj] at hrun
          have hr := congrArg Prod.snd hrun
          right
          exact ⟨by simp [classify, hacq], ⟨_, hr.symm⟩⟩
        | none =>
          cases conn with
          | immediate =>
            simp only [try_host, hacq, Option.some_inj] at hrun
            have hr := congrArg Prod.snd hrun
            left
            exact ⟨ProbeOutcome.Open, by simp [classify, hacq], by simpa using hr.symm⟩
          | ehostdown =>
            simp only [try_host, hacq, Option.some_inj] at hrun
            have hr := congrArg Prod.snd hrun
            left
            refine ⟨ProbeOutcome.HostDown, by simp [classify, hacq], ?_⟩
            simpa using hr.symm
          | otherErr m =>
            simp only [try_host, hacq, Option.some_inj] at hrun
            have hr := congrArg Prod.snd hrun
            right
            exact ⟨by simp [classify, hacq], ⟨_, hr.symm⟩⟩
          | einprogress =>
            cases sel with
            | errored m =>
              simp only [try_host, hacq, Option.some_inj] at hrun
              have hr := congrArg Prod.snd hrun
              right
              exact ⟨by simp [classify, hacq], ⟨_, hr.symm⟩⟩
            | timedOut =>
              simp only [try_host, hacq, Option.some_inj] at hrun
              have hr := congrArg Prod.snd hrun
              left
              refine ⟨ProbeOutcome.TimedOut, by simp [classify, hacq], ?_⟩
              simpa using hr.symm
            | writable =>
              cases soe with
              | error m =>
                simp only [try_host, hacq, Option.some_inj] at hrun
                have hr := congrArg Prod.snd hrun
                right
                exact ⟨by simp [classify, hacq], ⟨_, hr.symm⟩⟩
              | ok v =>
                by_cases hv : v = 0
                · subst hv
                  simp only [try_host, hacq, ne_eq, not_true_eq_false, reduceIte,
                    Option.some_inj] at hrun
                  have hr := congrArg Prod.snd hrun
                  left
                  exact ⟨ProbeOutcome.Open, by simp [classify, hacq], by simpa using hr.symm⟩
                · simp only [try_host, hacq, ne_eq, hv, not_false_eq_true, reduceIte,
                    Option.some_inj] at hrun
                  have hr := congrArg Prod.snd hrun
                  left
                  refine ⟨ProbeOutcome.Closed, by simp [classify, hacq, hv], ?_⟩
                  simpa using hr.symm
theorem collectLoop_ok (net : String → ProbeEnv) (dbg : Bool) (tv : Timeval)
    (l : List (String × Nat)) (hok : ∀ t ∈ l, (classify (net t.1)).isSome = true)
    (hne : ∀ t ∈ l, t.1 ≠ "") :
    collectLoop (probeOf net dbg tv) l =
      (l.filterMap (fun t =>
          if classify (net t.1) = some ProbeOutcome.Open then some t.1 else none),
        none, false) := by
  induction l with
  | nil => simp [collectLoop]
  | cons t ts ih =>
    obtain ⟨o, ho⟩ := Option.isSome_iff_exists.mp (hok t (List.mem_cons_self t ts))
    have hprobe : probeOf net dbg tv t.1 t.2
        = some (Except.ok (if o = ProbeOutcome.Open then t.1 else "")) := by
      simpa [probeOf] using probeOf_of_classify ho dbg tv t.1 t.2
    have ih2 := ih (fun u hu => hok u (List.mem_cons_of_mem t hu))
      (fun u hu => hne u (List.mem_cons_of_mem t hu))
    by_cases hO : o = ProbeOutcome.Open
    · subst hO
      simp [collectLoop, hprobe, ih2, List.filterMap_cons, ho,
        hne t (List.mem_cons_self t ts)]
    · simp [collectLoop, hprobe, ih2, List.filterMap_cons, ho, hO]

theorem collectLoop_error (net : String → ProbeEnv) (dbg : Bool) (tv : Timeval)
    (l1 : List (String × Nat)) (t : String × Nat) (l2 : List (String × Nat)) (m : String)
    (hok : ∀ u ∈ l1, (classify (net u.1)).isSome = true)
    (hne : ∀ u ∈ l1, u.1 ≠ "")
    (hbad : probeOf net dbg tv t.1 t.2 = some (Except.error m)) :
    collectLoop (probeOf net dbg tv) (l1 ++ t :: l2) =
      (l1.filterMap (fun u =>
          if classify (net u.1) = some ProbeOutcome.Open then some u.1 else none),
        some m, false) := by
  induction l1 with
  | nil => simp [collectLoop, hbad]
  | cons u us ih =>
    obtain ⟨o, ho⟩ := Option.isSome_iff_exists.mp (hok u (List.mem_cons_self u us))
    have hprobe : probeOf net dbg tv u.1 u.2
        = some (Except.ok (if o = ProbeOutcome.Open then u.1 else "")) := by
      simpa [probeOf] using probeOf_of_classify ho dbg tv u.1 u.2
    have ih2 := ih (fun w hw => hok w (List.mem_cons_of_mem u hw))
      (fun w hw => hne w (List.mem_cons_of_mem u hw))
    by_cases hO : o = ProbeOutcome.Open
    · subst hO
      simp [collectLoop, hprobe, ih2, List.filterMap_cons, ho,
        hne u (List.mem_cons_self u us)]
    · simp [collectLoop, hprobe, ih2, List.filterMap_cons, ho, hO]

theorem collectLoop_fst_outputs (probe : String → Nat → Option (Except String String))
    (l : List (String × Nat)) :
    (collectLoop probe l).1 = outputsOf (collectTrace probe l) := by
  induction l with
  | nil => simp [collectLoop, collectTrace, outputsOf]
  | cons t ts ih =>
    rcases hp : probe t.1 t.2 with _ | r
    · simp [collectLoop, collectTrace, hp, outputsOf]
    · rcases r with m | s
      · simp [collectLoop, collectTrace, hp, outputsOf]
      · by_cases hs : s = ""
        · subst hs
          simp [collectLoop, collectTrace, hp, outputsOf, ih]
        · simp [collectLoop, collectTrace, hp, outputsOf, ih, hs]

theorem collectTrace_streams (probe : String → Nat → Option (Except String String))
    (l : List (String × Nat)) (hok : ∀ t ∈ l, ∃ s, probe t.1 t.2 = some (Except.ok s)) :
    collectTrace probe l = l.flatMap (fun t =>
      OEv.join t.1 :: (if okStr (probe t.1 t.2) = "" then []
        else [OEv.output (okStr (probe t.1 t.2))])) := by
  induction l with
  | nil => simp [collectTrace]
  | cons t ts ih =>
    obtain ⟨s, hs⟩ := hok t (List.mem_cons_self t ts)
    have ih2 := ih (fun u hu => hok u (List.mem_cons_of_mem t hu))
    by_cases h0 : s = ""
    · subst h0
      simp [collectTrace, hs, ih2, okStr]
    · simp [collectTrace, hs, ih2, okStr, h0]
set_option maxRecDepth 4000 in
theorem toString_range_facts : ∀ i ∈ List.range' 1 254, toString i ≠ "" ∧
    toString i ≠ "0" ∧ toString i ≠ "255" := by decide

theorem strApp_ne_empty (a b : String) (hb : b ≠ "") : a ++ b ≠ "" := by
  intro h
  have h2 := congrArg String.length h
  rw [String.length_append] at h2
  simp only [String.length_empty] at h2
  have hb2 : b.length = 0 := by omega
  cases b with
  | mk data =>
    cases data with
    | nil => exact hb rfl
    | cons c cs => simp [String.length, List.length] at hb2

theorem mem_mkFutureArgs {pres : List String} {port : Nat} {t : String × Nat}
    (h : t ∈ mkFutureArgs pres port) :
    ∃ pre ∈ pres, ∃ i ∈ List.range' 1 254, t = (pre ++ toString i, port) := by
  simp only [mkFutureArgs, expandSubnet, List.mem_flatMap, List.mem_map] at h
  obtain ⟨pre, hpre, ip, ⟨i, hi, rfl⟩, rfl⟩ := h
  exact ⟨pre, hpre, i, hi, rfl⟩

theorem mkFutureArgs_addr_ne {pres : List String} {port : Nat} {t : String × Nat}
    (h : t ∈ mkFutureArgs pres port) : t.1 ≠ "" := by
  obtain ⟨pre, _, i, hi, rfl⟩ := mem_mkFutureArgs h
  exact strApp_ne_empty pre (toString i) (toString_range_facts i hi).1

theorem validateSubnets_error (l : List String) (h : ∃ s ∈ l, parseSubnet s = none) :
    ∃ bad, parseSubnet bad = none ∧ bad ∈ l ∧ validateSubnets l = Except.error bad := by
  induction l with
  | nil => simp at h
  | cons s rest ih =>
    rcases hp : parseSubnet s with _ | pre
    · exact ⟨s, hp, List.mem_cons_self s rest, by simp [validateSubnets, hp]⟩
    · have h2 : ∃ u ∈ rest, parseSubnet u = none := by
        obtain ⟨u, hu, hun⟩ := h
        rcases List.mem_cons.mp hu with rfl | hu2
        · rw [hp] at hun
          cases hun
        · exact ⟨u, hu2, hun⟩
      obtain ⟨bad, h1, h2b, h3⟩ := ih h2
      exact ⟨bad, h1, List.mem_cons_of_mem _ h2b, by simp [validateSubnets, hp, h3]⟩

theorem mainRun_eq_collect (pn tStr pStr sn0 : String) (snRest : List String) (dbgFlag : Bool)
    (net : String → ProbeEnv) (tv : Timeval) (port : Nat) (pres : List String)
    (ht : string_to_timeval tStr = some tv)
    (hp : string_to_uint16 pStr = some port)
    (hs : validateSubnets (sn0 :: snRest) = Except.ok pres) :
    mainRun pn ((if dbgFlag then ["--debug"] else []) ++ tStr :: pStr :: sn0 :: snRest) net =
      (match (collectLoop (probeOf net dbgFlag tv) (mkFutureArgs pres port)).2.1 with
       | some m => ⟨(collectLoop (probeOf net dbgFlag tv) (mkFutureArgs pres port)).1,
           some (pn ++ ": " ++ m), true,
           (collectLoop (probeOf net dbgFlag tv) (mkFutureArgs pres port)).2.2⟩
       | none => ⟨(collectLoop (probeOf net dbgFlag tv) (mkFutureArgs pres port)).1,
           none, false, (collectLoop (probeOf net dbgFlag tv) (mkFutureArgs pres port)).2.2⟩) := by
  cases dbgFlag
  · have hne : ¬ (tStr = "--debug") := by
      rintro rfl
      rw [show string_to_timeval "--debug" = none from rfl] at ht
      cases ht
    have hbeq : (tStr == "--debug") = false := beq_eq_false_iff_ne.mpr hne
    simp [mainRun, ht, hp, hs, hbeq]
  · simp [mainRun, ht, hp, hs]

/-! ## Claim theorems: enumeration and orchestration output -/

theorem mkFutureArgs_get (pres : List String) (port : Nat) :
    ∀ (m k : Nat), m < pres.length → k < 254 →
      (mkFutureArgs pres port)[254 * m + k]?
        = pres[m]?.map (fun q => (q ++ toString (k + 1), port)) := by
  induction pres with
  | nil =>
    intro m k hm hk
    simp at hm
  | cons p ps ih =>
    intro m k hm hk
    have hsplit : mkFutureArgs (p :: ps) port
        = ((expandSubnet p).map (fun ip => (ip, port))) ++ mkFutureArgs ps port := by
      simp [mkFutureArgs]
    have hlen : ((expandSubnet p).map (fun ip => (ip, port))).length = 254 := by
      simp [expandSubnet]
    cases m with
    | zero =>
      rw [hsplit]
      rw [List.getElem?_append, if_pos (by omega)]
      simp only [Nat.mul_zero, Nat.zero_add]
      rw [expandSubnet, List.map_map, List.getElem?_map, List.getElem?_range' _ _ hk]
      simp [Nat.add_comm]
    | succ m2 =>
      rw [hsplit]
      rw [List.getElem?_append_right (by omega)]
      have harith : 254 * (m2 + 1) + k - ((expandSubnet p).map (fun ip => (ip, port))).length
          = 254 * m2 + k := by
        rw [hlen]
        ring_nf
        omega
      rw [harith, ih m2 k (by simpa using Nat.lt_of_succ_lt_succ hm) hk]
      simp

/-- C2: every accepted subnet specification A.B.C.x/24 (any 1-3 digit host
octet x, ignored by normalization) makes the Enumerator produce exactly 254
targets, the k-th being A.B.C.(k+1) paired with the given port, host octets
ascending 1..254; the .0 and .255 addresses are never produced, and with
several subnets the blocks appear in argument order. -/
theorem enumerator_produces_254_hosts
    (a b c x : List Char) (ha : okOct a) (hb : okOct b) (hc : okOct c) (hx : okOct x) :
    parseSubnet ⟨a ++ '.' :: (b ++ '.' :: (c ++ '.' :: (x ++ ['/', '2', '4'])))⟩
        = some ⟨a ++ '.' :: (b ++ '.' :: (c ++ ['.']))⟩ ∧
      (∀ pre : String,
        (expandSubnet pre).length = 254 ∧
        (∀ k, k < 254 → (expandSubnet pre)[k]? = some (pre ++ toString (k + 1))) ∧
        (∀ t ∈ expandSubnet pre, t ≠ pre ++ "0" ∧ t ≠ pre ++ "255")) ∧
      ∀ (pres : List String) (port : Nat) (m k : Nat), m < pres.length → k < 254 →
        (mkFutureArgs pres port)[254 * m + k]?
          = pres[m]?.map (fun q => (q ++ toString (k + 1), port)) := by
  refine ⟨?_, ?_, fun pres port m k hm hk => mkFutureArgs_get pres port m k hm hk⟩
  · have h := matchSubnet_complete a b c x ha hb hc hx
    simp [parseSubnet, h]
  · intro pre
    refine ⟨by simp [expandSubnet], ?_, ?_⟩
    · intro k hk
      rw [expandSubnet, List.getElem?_map, List.getElem?_range' _ _ hk]
      simp [Nat.add_comm]
    · intro t ht
      simp only [expandSubnet, List.mem_map] at ht
      obtain ⟨i, hi, rfl⟩ := ht
      have hfacts := toString_range_facts i hi
      constructor
      · intro hEq
        exact hfacts.2.1 ((strApp_cancel_left pre).mp hEq)
      · intro hEq
        exact hfacts.2.2 ((strApp_cancel_left pre).mp hEq)

theorem enumerator_produces_254_hosts_witness :
    parseSubnet "10.60.3.7/24" = some "10.60.3." ∧
      (expandSubnet "10.60.3.").length = 254 ∧
      (expandSubnet "10.60.3.")[0]? = some "10.60.3.1" ∧
      (expandSubnet "10.60.3.")[253]? = some "10.60.3.254" ∧
      "10.60.3.0" ∉ expandSubnet "10.60.3." ∧
      "10.60.3.255" ∉ expandSubnet "10.60.3." := by
  have h := enumerator_produces_254_hosts ['1', '0'] ['6', '0'] ['3'] ['7']
    (by unfold okOct DigitsOnly; decide) (by unfold okOct DigitsOnly; decide)
    (by unfold okOct DigitsOnly; decide) (by unfold okOct DigitsOnly; decide)
  refine ⟨h.1, (h.2.1 "10.60.3.").1, ?_, ?_, ?_, ?_⟩
  · simpa using (h.2.1 "10.60.3.").2.1 0 (by omega)
  · simpa using (h.2.1 "10.60.3.").2.1 253 (by omega)
  · intro hmem
    exact ((h.2.1 "10.60.3.").2.2 _ hmem).1 rfl
  · intro hmem
    exact ((h.2.1 "10.60.3.").2.2 _ hmem).2 rfl

/-- C1: a run whose arguments parse, whose subnets validate, and in which
every probe finishes with an outcome (no fatal error) writes to standard
output exactly the addresses of the targets classified Open, one per line, in
enumeration order; Closed, TimedOut and HostDown targets produce no line, the
diagnostic line is absent and the exit is successful. -/
theorem run_stdout_exactly_open_targets
    (pn tStr pStr sn0 : String) (snRest : List String) (dbgFlag : Bool)
    (net : String → ProbeEnv) (tv : Timeval) (port : Nat) (pres : List String)
    (ht : string_to_timeval tStr = some tv)
    (hp : string_to_uint16 pStr = some port)
    (hs : validateSubnets (sn0 :: snRest) = Except.ok pres)
    (hok : ∀ t ∈ mkFutureArgs pres port, (classify (net t.1)).isSome = true) :
    mainRun pn ((if dbgFlag then ["--debug"] else []) ++ tStr :: pStr :: sn0 :: snRest) net =
      ⟨(mkFutureArgs pres port).filterMap (fun t =>
          if classify (net t.1) = some ProbeOutcome.Open then some t.1 else none),
        none, false, false⟩ := by
  rw [mainRun_eq_collect pn tStr pStr sn0 snRest dbgFlag net tv port pres ht hp hs]
  rw [collectLoop_ok net dbgFlag tv (mkFutureArgs pres port) hok
    (fun t htm => mkFutureArgs_addr_ne htm)]

theorem run_stdout_exactly_open_targets_witness :
    mainRun "scanport" ["0.5", "80", "10.0.0.0/24"] netTwoOpen =
      ⟨(mkFutureArgs ["10.0.0."] 80).filterMap (fun t =>
          if classify (netTwoOpen t.1) = some ProbeOutcome.Open then some t.1 else none),
        none, false, false⟩ := by
  have hok : ∀ t ∈ mkFutureArgs ["10.0.0."] 80,
      (classify (netTwoOpen t.1)).isSome = true := by
    intro t _
    by_cases h1 : t.1 = "10.0.0.1"
    · simp [netTwoOpen, h1, classify, envOpen, acquireSocket]
    · by_cases h2 : t.1 = "10.0.0.2"
      · simp [netTwoOpen, h1, h2, classify, envOpen, acquireSocket]
      · simp [netTwoOpen, h1, h2, classify, envClosed, acquireSocket]
  exact run_stdout_exactly_open_targets "scanport" "0.5" "80" "10.0.0.0/24" [] false
    netTwoOpen ⟨0, 500000⟩ 80 ["10.0.0."] (by decide) (by decide) rfl hok

/-! ## Claim theorems: probe resource safety and result values -/

theorem logs_are_logs (dbg : Bool) (ls : List String) :
    ∀ e ∈ (if dbg then ls.map Ev.log else []), ∃ m, e = Ev.log m := by
  intro e he
  cases dbg
  · simp at he
  · simp only [if_pos] at he
    obtain ⟨m, _, rfl⟩ := List.mem_map.mp he
    exact ⟨m, rfl⟩

theorem close_of_done_trace {dbg : Bool} {fd0 : Nat} (ls : List String) {tr : List Ev}
    (htr : (Ev.sockOpen fd0 :: ((if dbg then ls.map Ev.log else [])
        ++ [Ev.sockClose (Int.ofNat fd0)]), r0) = ((tr, r1) : List Ev × Except String String)) :
    ∀ fd, Ev.sockOpen fd ∈ tr →
      Ev.sockClose (Int.ofNat fd) ∈ tr ∧
        tr.getLast? = some (Ev.sockClose (Int.ofNat fd)) := by
  have htr2 : Ev.sockOpen fd0 :: ((if dbg then ls.map Ev.log else [])
      ++ [Ev.sockClose (Int.ofNat fd0)]) = tr := congrArg Prod.fst htr
  subst htr2
  intro fd hfd
  have hfd0 : fd = fd0 := by
    rcases List.mem_cons.mp hfd with h1 | h2
    · cases h1
      rfl
    · rcases List.mem_append.mp h2 with h3 | h4
      · obtain ⟨m, hm⟩ := logs_are_logs dbg ls _ h3
        cases hm
      · simp at h4
  subst hfd0
  constructor
  · exact List.mem_cons_of_mem _ (List.mem_append_right _ (by simp))
  · rw [show Ev.sockOpen fd :: ((if dbg then ls.map Ev.log else [])
        ++ [Ev.sockClose (Int.ofNat fd)])
      = (Ev.sockOpen fd :: (if dbg then ls.map Ev.log else []))
        ++ [Ev.sockClose (Int.ofNat fd)] from rfl]
    exact List.getLast?_concat _

/-- C4: a probe invocation that finishes releases the socket it acquired on
every exit path: whatever descriptor the acquisition loop obtained, the event
trace closes it, and that close is the final event, both when the probe
returns an outcome and when it propagates a thrown error. -/
theorem try_host_releases_socket
    (dbg : Bool) (env : ProbeEnv) (tv : Timeval) (ip : String) (port : Nat)
    (tr : List Ev) (r : Except String String)
    (h : try_host dbg env tv ip port = some (tr, r)) :
    ∀ fd, Ev.sockOpen fd ∈ tr →
      Ev.sockClose (Int.ofNat fd) ∈ tr ∧
        tr.getLast? = some (Ev.sockClose (Int.ofNat fd)) := by
  obtain ⟨atts, pton, fcn, conn, sel, soe⟩ := env
  rcases hacq : acquireSocket atts with _ | e
  · simp [try_host, hacq] at h
  · rcases e with m | fd0
    · simp only [try_host, hacq, Option.some_inj] at h
      have htr : ([Ev.sockClose (-1)] : List Ev) = tr := congrArg Prod.fst h
      intro fd hfd
      rw [← htr] at hfd
      simp at hfd
    · cases pton <;> cases fcn <;> cases conn <;> cases sel <;> cases soe <;>
        simp only [try_host, hacq] at h <;>
        first
          | exact close_of_done_trace _ (Option.some_inj.mp h)
          | (split at h <;> exact close_of_done_trace _ (Option.some_inj.mp h))

theorem try_host_releases_socket_witness :
    Ev.sockClose (Int.ofNat 3) ∈ [Ev.sockOpen 3, Ev.sockClose 3] ∧
      ([Ev.sockOpen 3, Ev.sockClose 3] : List Ev).getLast?
        = some (Ev.sockClose (Int.ofNat 3)) :=
  try_host_releases_socket false envIoErr ⟨0, 500000⟩ "10.0.0.2" 80
    [Ev.sockOpen 3, Ev.sockClose 3] (Except.error "connect 10.0.0.2: Permission denied")
    rfl 3 (by decide)

/-- C10: a probe invocation that returns normally yields either the input
address unchanged (the Open outcome) or the empty string (the Closed,
TimedOut and HostDown outcomes), so the three negative outcomes are
indistinguishable in the probe result value. -/
theorem try_host_result_dichotomy
    (dbg : Bool) (env : ProbeEnv) (tv : Timeval) (ip : String) (port : Nat)
    (tr : List Ev) (s : String)
    (h : try_host dbg env tv ip port = some (tr, Except.ok s)) :
    (s = ip ∧ classify env = some ProbeOutcome.Open) ∨
      (s = "" ∧ (classify env = some ProbeOutcome.Closed ∨
        classify env = some ProbeOutcome.TimedOut ∨
        classify env = some ProbeOutcome.HostDown)) := by
  rcases try_host_spec h with ⟨o, ho, hr⟩ | ⟨_, m, hr⟩
  · have hs : s = if o = ProbeOutcome.Open then ip else "" := by
      injection hr
    cases o with
    | Open => exact Or.inl ⟨by simpa using hs, ho⟩
    | Closed => exact Or.inr ⟨by simpa using hs, Or.inl ho⟩
    | TimedOut => exact Or.inr ⟨by simpa using hs, Or.inr (Or.inl ho)⟩
    | HostDown => exact Or.inr ⟨by simpa using hs, Or.inr (Or.inr ho)⟩
  · cases hr

theorem try_host_result_dichotomy_witness :
    (("" : String) = "10.0.0.9" ∧ classify envTimedOut = some ProbeOutcome.Open) ∨
      (("" : String) = "" ∧ (classify envTimedOut = some ProbeOutcome.Closed ∨
        classify envTimedOut = some ProbeOutcome.TimedOut ∨
        classify envTimedOut = some ProbeOutcome.HostDown)) :=
  try_host_result_dichotomy false envTimedOut ⟨0, 500000⟩ "10.0.0.9" 80
    [Ev.sockOpen 3, Ev.sockClose 3] "" rfl

/-! ## Claim theorems: probe outcome classification -/

/-- C3: for every probe invocation (with debug logging on) that terminates,
the outcome classification follows the specified case analysis: the address
is returned (Open) exactly when connect succeeds immediately or the socket
becomes writable with no pending error; the host-down, timeout and
not-connected debug outcomes occur exactly under EHOSTDOWN, an expired
readiness wait, and a pending socket error; every other socket, name
conversion, fcntl, connect, select or getsockopt failure yields a thrown
error instead of an outcome. -/
theorem try_host_classifies_outcomes
    (env : ProbeEnv) (tv : Timeval) (ip : String) (port : Nat)
    (tr : List Ev) (r : Except String String)
    (h : try_host true env tv ip port = some (tr, r)) (hip : ip ≠ "") :
    (r = Except.ok ip ↔
      ((∃ fd, acquireSocket env.sockAttempts = some (Except.ok fd)) ∧
        env.ptonErr = none ∧ env.fcntlErr = none ∧
        (env.connectRes = ConnectRes.immediate ∨
          (env.connectRes = ConnectRes.einprogress ∧ env.selectRes = SelectRes.writable ∧
            env.soErr = Except.ok 0)))) ∧
    ((r = Except.ok "" ∧ Ev.log (ip ++ " - host down") ∈ tr) ↔
      ((∃ fd, acquireSocket env.sockAttempts = some (Except.ok fd)) ∧
        env.ptonErr = none ∧ env.fcntlErr = none ∧
        env.connectRes = ConnectRes.ehostdown)) ∧
    ((r = Except.ok "" ∧ Ev.log (ip ++ " - timeout") ∈ tr) ↔
      ((∃ fd, acquireSocket env.sockAttempts = some (Except.ok fd)) ∧
        env.ptonErr = none ∧ env.fcntlErr = none ∧
        env.connectRes = ConnectRes.einprogress ∧ env.selectRes = SelectRes.timedOut)) ∧
    ((r = Except.ok "" ∧ Ev.log (ip ++ " - not connected") ∈ tr) ↔
      ((∃ fd, acquireSocket env.sockAttempts = some (Except.ok fd)) ∧
        env.ptonErr = none ∧ env.fcntlErr = none ∧
        env.connectRes = ConnectRes.einprogress ∧ env.selectRes = SelectRes.writable ∧
        ∃ er, env.soErr = Except.ok er ∧ er ≠ 0)) ∧
    ((∃ m, r = Except.error m) ↔
      ¬((∃ fd, acquireSocket env.sockAttempts = some (Except.ok fd)) ∧
        env.ptonErr = none ∧ env.fcntlErr = none ∧
        (env.connectRes = ConnectRes.immediate ∨ env.connectRes = ConnectRes.ehostdown ∨
          (env.connectRes = ConnectRes.einprogress ∧
            (env.selectRes = SelectRes.timedOut ∨
              (env.selectRes = SelectRes.writable ∧ ∃ er, env.soErr = Except.ok er)))))) := by
  have hip2 : ¬(("" : String) = ip) := fun h0 => hip h0.symm
  obtain ⟨atts, pton, fcn, conn, sel, soe⟩ := env
  rcases hacq : acquireSocket atts with _ | e
  · simp [try_host, hacq] at h
  · rcases e with m | fd0
    · simp only [try_host, hacq, Option.some_inj] at h
      have htr := congrArg Prod.fst h
      have hr := congrArg Prod.snd h
      simp only at htr hr
      subst htr
      subst hr
      simp [hacq]
    · cases pton with
      | some e =>
        simp only [try_host, hacq, Option.some_inj] at h
        have htr := congrArg Prod.fst h
        have hr := congrArg Prod.snd h
        simp only at htr hr
        subst htr
        subst hr
        simp [hacq]
      | none =>
        cases fcn with
        | some e =>
          simp only [try_host, hacq, Option.some_inj] at h
          have htr := congrArg Prod.fst h
          have hr := congrArg Prod.snd h
          simp only at htr hr
          subst htr
          subst hr
          simp [hacq]
        | none =>
          cases conn with
          | immediate =>
            simp only [try_host, hacq, Option.some_inj] at h
            have htr := congrArg Prod.fst h
            have hr := congrArg Prod.snd h
            simp only at htr hr
            subst htr
            subst hr
            simp [hacq, hip, hip2, strApp_cancel_left]
          | ehostdown =>
            simp only [try_host, hacq, Option.some_inj] at h
            have htr := congrArg Prod.fst h
            have hr := congrArg Prod.snd h
            simp only at htr hr
            subst htr
            subst hr
            simp [hacq, hip, hip2, strApp_cancel_left]
          | otherErr m =>
            simp only [try_host, hacq, Option.some_inj] at h
            have htr := congrArg Prod.fst h
            have hr := congrArg Prod.snd h
            simp only at htr hr
            subst htr
            subst hr
            simp [hacq]
          | einprogress =>
            cases sel with
            | errored m =>
              simp only [try_host, hacq, Option.some_inj] at h
              have htr := congrArg Prod.fst h
              have hr := congrArg Prod.snd h
              simp only at htr hr
              subst htr
              subst hr
              simp [hacq]
            | timedOut =>
              simp only [try_host, hacq, Option.some_inj] at h
              have htr := congrArg Prod.fst h
              have hr := congrArg Prod.snd h
              simp only at htr hr
              subst htr
              subst hr
              simp [hacq, hip, hip2, strApp_cancel_left]
            | writable =>
              cases soe with
              | error e =>
                simp only [try_host, hacq, Option.some_inj] at h
                have htr := congrArg Prod.fst h
                have hr := congrArg Prod.snd h
                simp only at htr hr
                subst htr
                subst hr
                simp [hacq]
              | ok v =>
                by_cases hv : v = 0
                · subst hv
                  simp only [try_host, hacq, ne_eq, eq_self_iff_true, not_true,
                    if_false, Option.some_inj] at h
                  have htr := congrArg Prod.fst h
                  have hr := congrArg Prod.snd h
                  simp only at htr hr
                  subst htr
                  subst hr
                  simp [hacq, hip, hip2, strApp_cancel_left]
                · simp only [try_host, hacq] at h
                  rw [if_pos hv] at h
                  rw [Option.some_inj] at h
                  have htr := congrArg Prod.fst h
                  have hr := congrArg Prod.snd h
                  simp only at htr hr
                  subst htr
                  subst hr
                  simp [hacq, hip, hip2, strApp_cancel_left, hv]

theorem try_host_classifies_outcomes_witness :
    ((Except.ok "" : Except String String) = Except.ok "10.0.0.7" ↔
      ((∃ fd, acquireSocket envTimedOut.sockAttempts = some (Except.ok fd)) ∧
        envTimedOut.ptonErr = none ∧ envTimedOut.fcntlErr = none ∧
        (envTimedOut.connectRes = ConnectRes.immediate ∨
          (envTimedOut.connectRes = ConnectRes.einprogress ∧
            envTimedOut.selectRes = SelectRes.writable ∧
            envTimedOut.soErr = Except.ok 0)))) ∧
    ((((Except.ok "" : Except String String) = Except.ok "" ∧
        Ev.log ("10.0.0.7" ++ " - host down")
          ∈ [Ev.sockOpen 3, Ev.log ("10.0.0.7" ++ " - timeout"), Ev.sockClose 3]) ↔
      ((∃ fd, acquireSocket envTimedOut.sockAttempts = some (Except.ok fd)) ∧
        envTimedOut.ptonErr = none ∧ envTimedOut.fcntlErr = none ∧
        envTimedOut.connectRes = ConnectRes.ehostdown))) ∧
    ((((Except.ok "" : Except String String) = Except.ok "" ∧
        Ev.log ("10.0.0.7" ++ " - timeout")
          ∈ [Ev.sockOpen 3, Ev.log ("10.0.0.7" ++ " - timeout"), Ev.sockClose 3]) ↔
      ((∃ fd, acquireSocket envTimedOut.sockAttempts = some (Except.ok fd)) ∧
        envTimedOut.ptonErr = none ∧ envTimedOut.fcntlErr = none ∧
        envTimedOut.connectRes = ConnectRes.einprogress ∧
        envTimedOut.selectRes = SelectRes.timedOut))) ∧
    ((((Except.ok "" : Except String String) = Except.ok "" ∧
        Ev.log ("10.0.0.7" ++ " - not connected")
          ∈ [Ev.sockOpen 3, Ev.log ("10.0.0.7" ++ " - timeout"), Ev.sockClose 3]) ↔
      ((∃ fd, acquireSocket envTimedOut.sockAttempts = some (Except.ok fd)) ∧
        envTimedOut.ptonErr = none ∧ envTimedOut.fcntlErr = none ∧
        envTimedOut.connectRes = ConnectRes.einprogress ∧
        envTimedOut.selectRes = SelectRes.writable ∧
        ∃ er, envTimedOut.soErr = Except.ok er ∧ er ≠ 0))) ∧
    ((∃ m, (Except.ok "" : Except String String) = Except.error m) ↔
      ¬((∃ fd, acquireSocket envTimedOut.sockAttempts = some (Except.ok fd)) ∧
        envTimedOut.ptonErr = none ∧ envTimedOut.fcntlErr = none ∧
        (envTimedOut.connectRes = ConnectRes.immediate ∨
          envTimedOut.connectRes = ConnectRes.ehostdown ∨
          (envTimedOut.connectRes = ConnectRes.einprogress ∧
            (envTimedOut.selectRes = SelectRes.timedOut ∨
              (envTimedOut.selectRes = SelectRes.writable ∧
                ∃ er, envTimedOut.soErr = Except.ok er)))))) :=
  try_host_classifies_outcomes envTimedOut ⟨0, 500000⟩ "10.0.0.7" 80
    [Ev.sockOpen 3, Ev.log ("10.0.0.7" ++ " - timeout"), Ev.sockClose 3]
    (Except.ok "") rfl (by decide)

/-! ## Claim theorems: orchestration order and failure behavior -/

/-- C5 counterexample: with two Open hosts, the orchestrator writes the first
address right after joining its future and before joining the second one, so
the join/output trace is not of the all-joins-then-all-outputs form the claim
asserts; its first three events are join .1, output .1, join .2. -/
theorem orchestrator_not_bulk_buffered :
    joinsThenOutputs (collectTrace (probeOf netTwoOpen false ⟨0, 500000⟩)
        (mkFutureArgs ["10.0.0."] 80)) = false ∧
      (collectTrace (probeOf netTwoOpen false ⟨0, 500000⟩)
        (mkFutureArgs ["10.0.0."] 80)).take 3
        = [OEv.join "10.0.0.1", OEv.output "10.0.0.1", OEv.join "10.0.0.2"] := by
  constructor
  · rfl
  · rfl

/-- C5 amended: the orchestrator joins the probes strictly in enumeration
order and writes each Open address immediately after joining its own probe,
before joining any later probe; results stream interleaved with collection
instead of being buffered until the full join, and the standard-output lines
are exactly the output events of this trace. -/
theorem orchestrator_streams_in_join_order
    (probe : String → Nat → Option (Except String String)) (l : List (String × Nat))
    (hok : ∀ t ∈ l, ∃ s, probe t.1 t.2 = some (Except.ok s)) :
    collectTrace probe l = l.flatMap (fun t =>
      OEv.join t.1 :: (if okStr (probe t.1 t.2) = "" then []
        else [OEv.output (okStr (probe t.1 t.2))])) ∧
    (collectLoop probe l).1 = outputsOf (collectTrace probe l) :=
  ⟨collectTrace_streams probe l hok, collectLoop_fst_outputs probe l⟩

theorem orchestrator_streams_in_join_order_witness :
    collectTrace (probeOf netTwoOpen false ⟨0, 500000⟩) [("10.0.0.1", 80), ("10.0.0.2", 80)]
      = [("10.0.0.1", 80), ("10.0.0.2", 80)].flatMap (fun t =>
          OEv.join t.1 :: (if okStr (probeOf netTwoOpen false ⟨0, 500000⟩ t.1 t.2) = "" then []
            else [OEv.output (okStr (probeOf netTwoOpen false ⟨0, 500000⟩ t.1 t.2))])) ∧
    (collectLoop (probeOf netTwoOpen false ⟨0, 500000⟩) [("10.0.0.1", 80), ("10.0.0.2", 80)]).1
      = outputsOf (collectTrace (probeOf netTwoOpen false ⟨0, 500000⟩)
          [("10.0.0.1", 80), ("10.0.0.2", 80)]) :=
  orchestrator_streams_in_join_order _ _ (by
    intro t ht
    rcases List.mem_cons.mp ht with rfl | ht2
    · exact ⟨"10.0.0.1", rfl⟩
    · rcases List.mem_cons.mp ht2 with rfl | ht3
      · exact ⟨"10.0.0.2", rfl⟩
      · simp at ht3)

/-- C6 counterexample: when the probe of host .2 throws an IoError after host
.1 was found Open, the run does abort with the single diagnostic line and a
nonzero exit, but standard output already carries the earlier Open address:
partial results are emitted, contradicting the no-partial-output part of the
claim. -/
theorem io_error_leaves_partial_output :
    mainRun "scanport" ["0.5", "80", "10.0.0.0/24"] netPartial
      = ⟨["10.0.0.1"], some "scanport: connect 10.0.0.2: Permission denied", true, false⟩ ∧
    (mainRun "scanport" ["0.5", "80", "10.0.0.0/24"] netPartial).stdout ≠ [] := by
  refine ⟨rfl, ?_⟩
  intro hc
  rw [show (mainRun "scanport" ["0.5", "80", "10.0.0.0/24"] netPartial).stdout
      = ["10.0.0.1"] from rfl] at hc
  cases hc

/-- C6 amended: if the first failing probe throws with message m, the whole
run aborts at that probe's join: the user sees the single diagnostic line
"program: m" and a nonzero exit, no target after the failing one is reported,
but standard output carries exactly the Open addresses among the targets
joined before the failing one (possibly a nonempty partial result). -/
theorem io_error_aborts_with_diagnostic
    (pn tStr pStr sn0 : String) (snRest : List String) (dbgFlag : Bool)
    (net : String → ProbeEnv) (tv : Timeval) (port : Nat) (pres : List String)
    (l1 l2 : List (String × Nat)) (t : String × Nat) (m : String)
    (ht : string_to_timeval tStr = some tv)
    (hp : string_to_uint16 pStr = some port)
    (hs : validateSubnets (sn0 :: snRest) = Except.ok pres)
    (hsplit : mkFutureArgs pres port = l1 ++ t :: l2)
    (hok : ∀ u ∈ l1, (classify (net u.1)).isSome = true)
    (hbad : probeOf net dbgFlag tv t.1 t.2 = some (Except.error m)) :
    mainRun pn ((if dbgFlag then ["--debug"] else []) ++ tStr :: pStr :: sn0 :: snRest) net =
      ⟨l1.filterMap (fun u =>
          if classify (net u.1) = some ProbeOutcome.Open then some u.1 else none),
        some (pn ++ ": " ++ m), true, false⟩ := by
  have hne : ∀ u ∈ l1, u.1 ≠ "" := by
    intro u hu
    exact @mkFutureArgs_addr_ne pres port u
      (by rw [hsplit]; exact List.mem_append_left _ hu)
  rw [mainRun_eq_collect pn tStr pStr sn0 snRest dbgFlag net tv port pres ht hp hs, hsplit]
  rw [collectLoop_error net dbgFlag tv l1 t l2 m hok hne hbad]

theorem io_error_aborts_with_diagnostic_witness :
    mainRun "scanport" ["0.5", "80", "10.0.0.0/24"] netPartial =
      ⟨[("10.0.0.1", 80)].filterMap (fun u =>
          if classify (netPartial u.1) = some ProbeOutcome.Open then some u.1 else none),
        some ("scanport" ++ ": " ++ "connect 10.0.0.2: Permission denied"), true, false⟩ :=
  io_error_aborts_with_diagnostic "scanport" "0.5" "80" "10.0.0.0/24" [] false
    netPartial ⟨0, 500000⟩ 80 ["10.0.0."]
    [("10.0.0.1", 80)] ((mkFutureArgs ["10.0.0."] 80).drop 2) ("10.0.0.2", 80)
    "connect 10.0.0.2: Permission denied"
    (by decide) (by decide) rfl rfl
    (by
      intro u hu
      rcases List.mem_cons.mp hu with rfl | h2
      · decide
      · simp at h2)
    rfl

/-! ## Claim theorems: argument parsing -/

/-- C8 counterexample: the string "-18446744073709551615" is not a plain
unsigned 16-bit numeral, yet stoul converts its digits to 2^64 - 1, negates
modulo 2^64 to 1, the whole string is consumed and 1 fits in 16 bits, so the
parser accepts it and returns port 1. -/
theorem port_parse_accepts_wrapped_negative :
    string_to_uint16 "-18446744073709551615" = some 1 ∧
      ¬ PortNumeral "-18446744073709551615" 1 := by
  refine ⟨by decide, ?_⟩
  unfold PortNumeral DigitsOnly
  decide

/-- C8 amended: port parsing succeeds with value p exactly when the string
follows the stoul grammar (optional whitespace, optional sign, then a
nonempty digit run reaching the end of the string), the digits convert
without unsigned 64-bit overflow, and the converted value after the unsigned
wrap for a minus sign is p < 2^16; on plain digit strings this coincides with
the original claim, but whitespace-prefixed and signed forms wrapping into
range are accepted as well. -/
theorem port_parse_characterization (s : String) (p : Nat) :
    string_to_uint16 s = some p ↔ StoulSpec s p := by
  constructor
  · intro h
    simp only [string_to_uint16] at h
    split at h
    · cases h
    · next v rest heq =>
      split at h
      · next hcond =>
        have hp : p = v := by
          have h2 := Option.some_inj.mp h
          rw [← h2, hcond.1]
        obtain ⟨w, sg, d, hdata, hw, hsg, hne, hd, hlt, hv⟩ := stoulCore_sound heq
        refine ⟨w, sg, d, ?_, hw, hsg, hne, hd, hlt, ?_, ?_⟩
        · rw [hcond.2] at hdata
          rw [hdata]
          simp [List.append_assoc]
        · rw [hp, hv]
        · rw [hp]
          exact (Nat.mod_eq_iff_lt (by norm_num)).mp hcond.1
      · cases h
  · rintro ⟨w, sg, d, hdata, hw, hsg, hne, hd, hlt, hp, hplt⟩
    have hcomp := stoulCore_complete w sg d hw hsg hne hd
    rw [if_neg (not_le.mpr hlt)] at hcomp
    have hdata2 : s.data = w ++ (sg ++ d) := by
      rw [hdata, List.append_assoc]
    have hmod : stoulWrap (isNegSign sg) (digitsVal d) % 2 ^ 16
        = stoulWrap (isNegSign sg) (digitsVal d) := by
      rw [← hp]
      exact Nat.mod_eq_of_lt hplt
    simp only [string_to_uint16, hdata2, hcomp, hmod]
    simp [hp]

/-- C7 counterexample: the negative timeout string "-1" is accepted by the
parser (yielding tv_sec = -1, tv_usec = 0) although it does not denote a
non-negative decimal number, so negative timeouts are not rejected with
InvalidTimeout. -/
theorem timeout_parse_accepts_negative :
    (string_to_timeval "-1").isSome = true ∧
      string_to_timeval "-1" = some ⟨-1, 0⟩ ∧ ¬ DecimalOkNonNeg "-1" := by
  refine ⟨rfl, rfl, ?_⟩
  rintro ⟨w, sg, d1, tail, d2, hdata, hshape, hfits, hnn⟩
  obtain ⟨hw, hsg, hd1, htail, hne⟩ := hshape
  have hcomp := stodCore_complete w sg d1 tail d2 hw hsg hd1 htail hne
  have hdata2 : ("-1" : String).data = w ++ (sg ++ (d1 ++ tail)) := by
    rw [hdata]
    simp [List.append_assoc]
  have h1 : stodCore (("-1" : String).data) = some (decVal (isNegSign sg) d1 d2, []) := by
    rw [hdata2]
    exact hcomp
  have h2 : stodCore (("-1" : String).data) = some ((⟨-1, 1⟩ : Frac), []) := rfl
  rw [h1] at h2
  have h3 : decVal (isNegSign sg) d1 d2 = (⟨-1, 1⟩ : Frac) :=
    (Prod.mk.injEq _ _ _ _ ▸ Option.some_inj.mp h2).1
  rw [h3] at hnn
  exact absurd hnn (by decide)

/-- C7 amended: negative timeouts are not rejected.  On the fragment where
the source's double arithmetic is exact — optional whitespace, an optional
sign and a nonempty digit run, the value below 2^53 — parsing succeeds and
yields the signed value as seconds with zero microseconds; in particular a
negative timeout string parses successfully instead of failing with
InvalidTimeout. -/
theorem timeout_parse_accepts_signed_integers
    (w sg d : List Char) (hw : WsOnly w) (hsg : SignShape sg) (hne : d ≠ [])
    (hd : DigitsOnly d) (hlt : digitsVal d < 2 ^ 53) :
    string_to_timeval ⟨w ++ sg ++ d⟩
      = some ⟨(if isNegSign sg then -(digitsVal d : Int) else (digitsVal d : Int)), 0⟩ := by
  have hcomp := stodCore_complete w sg d [] [] hw hsg hd (Or.inl ⟨rfl, rfl⟩)
    (fun h0 => absurd h0 hne)
  have hdata2 : (⟨w ++ sg ++ d⟩ : String).data = w ++ (sg ++ (d ++ [])) := by
    simp [List.append_assoc]
  have hv : decVal (isNegSign sg) d []
      = ⟨(if isNegSign sg then -(digitsVal d : Int) else (digitsVal d : Int)), 1⟩ := by
    have h0 : digitsVal ([] : List Char) = 0 := rfl
    simp [decVal, h0]
  have hsec : fracTrunc (decVal (isNegSign sg) d [])
      = (if isNegSign sg then -(digitsVal d : Int) else (digitsVal d : Int)) := by
    rw [hv]
    cases isNegSign sg <;> simp [fracTrunc]
  have husec : fracTrunc (fracScale (fracSub (decVal (isNegSign sg) d [])
      (fracTrunc (decVal (isNegSign sg) d []))) 1000000) = 0 := by
    rw [hsec, hv]
    cases isNegSign sg <;> simp [fracSub, fracScale, fracTrunc]
  have hfits : -(2 ^ 63) ≤ fracTrunc (decVal (isNegSign sg) d [])
      ∧ fracTrunc (decVal (isNegSign sg) d []) < 2 ^ 63 := by
    rw [hsec]
    have hN : (digitsVal d : Int) < 2 ^ 53 := by exact_mod_cast hlt
    have hN0 : (0 : Int) ≤ (digitsVal d : Int) := Int.ofNat_nonneg _
    cases isNegSign sg <;> simp <;> omega
  have hred : string_to_timeval ⟨w ++ sg ++ d⟩
      = if -(2 ^ 63) ≤ fracTrunc (decVal (isNegSign sg) d []) ∧
          fracTrunc (decVal (isNegSign sg) d []) < 2 ^ 63 then
        some ⟨fracTrunc (decVal (isNegSign sg) d []),
          fracTrunc (fracScale (fracSub (decVal (isNegSign sg) d [])
            (fracTrunc (decVal (isNegSign sg) d []))) 1000000)⟩
      else none := by
    rw [string_to_timeval, hdata2, hcomp]
    rfl
  rw [hred, if_pos hfits, husec, hsec]

theorem timeout_parse_accepts_signed_integers_witness :
    string_to_timeval " -3" = some ⟨-3, 0⟩ :=
  timeout_parse_accepts_signed_integers [' '] ['-'] ['3']
    (by unfold WsOnly; decide) (by unfold SignShape; decide) (by decide)
    (by unfold DigitsOnly; decide) (by decide)

/-! ## Claim theorems: subnet validation -/

/-- C9: a subnet argument is rejected exactly when it does not match the
dotted-quad pattern A.B.C.x/24 (four 1-3 digit runs separated by dots,
followed by "/24"); and whenever some subnet argument is rejected, the run
aborts before any probing: no standard output, the single InvalidSubnet
diagnostic line naming the offending argument, and a nonzero exit. -/
theorem subnet_validation_rejects_nonmatching :
    (∀ s : String, (parseSubnet s).isSome = true ↔ SubnetPat s) ∧
    (∀ (pn tStr pStr sn0 : String) (snRest : List String) (dbgFlag : Bool)
      (net : String → ProbeEnv) (tv : Timeval) (port : Nat),
      string_to_timeval tStr = some tv → string_to_uint16 pStr = some port →
      (∃ s ∈ sn0 :: snRest, parseSubnet s = none) →
      ∃ bad, parseSubnet bad = none ∧ bad ∈ sn0 :: snRest ∧
        mainRun pn ((if dbgFlag then ["--debug"] else []) ++ tStr :: pStr :: sn0 :: snRest) net
          = ⟨[], some (pn ++ ": " ++ ("Invalid subnet \x27" ++ bad ++ "\x27")),
              true, false⟩) := by
  constructor
  · intro s
    constructor
    · intro h
      obtain ⟨pre, hpre⟩ := Option.isSome_iff_exists.mp h
      simp only [parseSubnet, Option.map_eq_some'] at hpre
      obtain ⟨cs, hcs, _⟩ := hpre
      obtain ⟨a, b, c, x, ha, hb, hc, hx, hdata, _⟩ := matchSubnet_sound hcs
      exact ⟨a, b, c, x, ha, hb, hc, hx, hdata⟩
    · rintro ⟨a, b, c, x, ha, hb, hc, hx, hdata⟩
      have hm := matchSubnet_complete a b c x ha hb hc hx
      simp [parseSubnet, hdata, hm]
  · intro pn tStr pStr sn0 snRest dbgFlag net tv port ht hp hex
    obtain ⟨bad, hbadparse, hbadmem, hval⟩ := validateSubnets_error _ hex
    refine ⟨bad, hbadparse, hbadmem, ?_⟩
    cases dbgFlag
    · have hne2 : ¬ (tStr = "--debug") := by
        rintro rfl
        rw [show string_to_timeval "--debug" = none from rfl] at ht
        cases ht
      have hbeq : (tStr == "--debug") = false := beq_eq_false_iff_ne.mpr hne2
      simp [mainRun, ht, hp, hval, hbeq, mainFail]
    · simp [mainRun, ht, hp, hval, mainFail]

theorem subnet_validation_rejects_nonmatching_witness :
    ((parseSubnet "10.60.3.0/24").isSome = true) ∧
    ∃ bad, parseSubnet bad = none ∧ bad ∈ ["banana"] ∧
      mainRun "scanport" ["0.5", "80", "banana"] (fun _ => envOpen)
        = ⟨[], some ("scanport" ++ ": " ++ ("Invalid subnet \x27" ++ bad ++ "\x27")),
            true, false⟩ := by
  constructor
  · exact (subnet_validation_rejects_nonmatching.1 "10.60.3.0/24").mpr
      ⟨['1', '0'], ['6', '0'], ['3'], ['0'],
        (by unfold okOct DigitsOnly; decide), (by unfold okOct DigitsOnly; decide),
        (by unfold okOct DigitsOnly; decide), (by unfold okOct DigitsOnly; decide),
        by decide⟩
  · exact subnet_validation_rejects_nonmatching.2 "scanport" "0.5" "80" "banana" [] false
      (fun _ => envOpen) ⟨0, 500000⟩ 80 (by decide) (by decide)
      ⟨"banana", by simp, rfl⟩

end Scanport
